import Mathlib

/-!
Shallow embedding of the rules engine of the resistance bot
(source file: src/resistance_bot/game.py).

Players are identified by their platform user id, which the source compares
for equality; we model them as natural numbers.  Python dictionaries that map
users to booleans are modelled as association lists in insertion order with
unique keys (an invariant of all reachable states, re-established below).
A mutating method of the source either returns normally, raises GameError, or
raises an unchecked exception (IndexError / KeyError / AttributeError /
TypeError / ZeroDivisionError) on a list index or table lookup that misses;
the embedding returns an Except value whose error case records which kind of
failure occurred together with the state of the object at the moment of the
raise (Python leaves the object in exactly that state).
-/

abbrev Player := Nat

/-- MIN_PLAYERS constant of game.py. -/
def MIN_PLAYERS : Nat := 5

/-- MAX_PLAYERS constant of game.py. -/
def MAX_PLAYERS : Nat := 10

/-- PARTY_SIZES table of game.py: party size per round for every possible
player count; a lookup of a player count outside the table is a KeyError,
modelled by none. -/
def PARTY_SIZES (n : Nat) : Option (List Nat) :=
  match n with
  | 5 => some [2, 3, 2, 3, 3]
  | 6 => some [2, 3, 4, 3, 4]
  | 7 => some [2, 3, 3, 4, 4]
  | 8 => some [3, 4, 4, 5, 5]
  | 9 => some [3, 4, 4, 5, 5]
  | 10 => some [3, 4, 4, 5, 5]
  | _ => none

/-- WIN_LIMIT constant of game.py: number of rounds a side needs to win. -/
def WIN_LIMIT : Nat := 3

/-- VOTE_LIMIT constant of game.py: maximum number of failed votes per round. -/
def VOTE_LIMIT : Nat := 5

/-- MIN_2IN4TH constant of game.py: minimum player count enabling the
two-black-cards-in-the-fourth-round rule. -/
def MIN_2IN4TH : Nat := 7

/-- Python list indexing: a negative index counts from the end, an index out
of range raises (none). -/
def pyIdx {α : Type} (xs : List α) (i : Int) : Option α :=
  if i < 0 then
    if i + xs.length < 0 then none else xs.get? (i + xs.length).toNat
  else xs.get? i.toNat

/-- GameState enumeration of game.py. -/
inductive GameState where
  | NOT_STARTED
  | PROPOSAL_PENDING
  | PARTY_VOTE_IN_PROGRESS
  | PARTY_VOTE_RESULTS
  | MISSION_VOTE_IN_PROGRESS
  | MISSION_VOTE_RESULTS
  | GAME_OVER
deriving DecidableEq

/-- Vote class of game.py: one party proposal together with its ballots
(a user-to-bool dictionary, modelled as an insertion-ordered list). -/
structure Vote where
  party : List Player
  ballots : List (Player × Bool)
deriving DecidableEq

/-- Vote.outcome of game.py: the party is appointed if the count of True
ballot values exceeds the count of False values. -/
def Vote.outcome (v : Vote) : Bool :=
  (v.ballots.map Prod.snd).count true > (v.ballots.map Prod.snd).count false

/-- Round class of game.py. -/
structure Round where
  winning_count : Nat
  votes : List Vote
  ballots : List (Player × Bool)
deriving DecidableEq

/-- Round.last_vote of game.py: the last proposal vote, none when there is
no proposal yet (Python returns None). -/
def Round.last_vote (r : Round) : Option Vote :=
  r.votes.getLast?

/-- Round.can_vote of game.py: whether the list of proposal votes is still
below VOTE_LIMIT. -/
def Round.can_vote (r : Round) : Bool :=
  r.votes.length < VOTE_LIMIT

/-- Round.outcome of game.py: false (spies win) when the vote limit is
reached, otherwise true exactly when the count of False mission ballots is
below winning_count. -/
def Round.outcome (r : Round) : Bool :=
  if r.can_vote then
    (r.ballots.map Prod.snd).count false < r.winning_count
  else false

/-- GameInstance class of game.py, restricted to the fields the rules engine
reads (chat and creator are only logged or read by collaborators). -/
structure GameInstance where
  state : GameState
  players : List Player
  spies : List Player
  rounds : List Round
  leader_idx : Int
deriving DecidableEq

/-- GameInstance.__init__ of game.py. -/
def GameInstance.init : GameInstance :=
  { state := .NOT_STARTED, players := [], spies := [], rounds := [], leader_idx := -1 }

/-- GameInstance.outcome of game.py: counts the outcomes of all rounds in
the rounds list; some true when the resistance reached WIN_LIMIT round wins,
some false when the spies did, none (Python None) otherwise. -/
def GameInstance.outcome (g : GameInstance) : Option Bool :=
  if WIN_LIMIT ≤ (g.rounds.map Round.outcome).count true then some true
  else if WIN_LIMIT ≤ (g.rounds.map Round.outcome).count false then some false
  else none

/-!
The read-only derived queries.  Each returns an Option (Option _): the outer
layer is none exactly when the Python property would raise an unchecked
exception (list index or table key out of range), and some none when the
property returns the defined value None.
-/

/-- GameInstance.current_round of game.py: rounds[-1] outside NOT_STARTED
and GAME_OVER, None otherwise; outer none models the IndexError on an empty
rounds list. -/
def GameInstance.current_round (g : GameInstance) : Option (Option Round) :=
  if g.state ≠ .NOT_STARTED ∧ g.state ≠ .GAME_OVER then
    match g.rounds.getLast? with
    | some r => some (some r)
    | none => none
  else some none

/-- GameInstance.current_vote of game.py: last_vote of the current round in
the two party-vote states, None otherwise; outer none models the raise on an
empty rounds list. -/
def GameInstance.current_vote (g : GameInstance) : Option (Option Vote) :=
  if g.state = .PARTY_VOTE_IN_PROGRESS ∨ g.state = .PARTY_VOTE_RESULTS then
    match g.rounds.getLast? with
    | some r => some r.last_vote
    | none => none
  else some none

/-- GameInstance.current_party of game.py: the party of the last vote of the
current round in the four voting states, None otherwise; outer none models
the raise when the rounds list is empty or the current round has no vote. -/
def GameInstance.current_party (g : GameInstance) : Option (Option (List Player)) :=
  if g.state = .PARTY_VOTE_IN_PROGRESS ∨ g.state = .PARTY_VOTE_RESULTS ∨
      g.state = .MISSION_VOTE_IN_PROGRESS ∨ g.state = .MISSION_VOTE_RESULTS then
    match g.rounds.getLast? with
    | some r =>
      match r.last_vote with
      | some v => some (some v.party)
      | none => none
    | none => none
  else some none

/-- GameInstance.current_party_size of game.py: the PARTY_SIZES table entry
for the current player count, indexed by len(rounds) - 1 in Python indexing;
outer none models the KeyError or IndexError. -/
def GameInstance.current_party_size (g : GameInstance) : Option (Option Nat) :=
  if g.state ≠ .NOT_STARTED ∧ g.state ≠ .GAME_OVER then
    match PARTY_SIZES g.players.length with
    | some sizes =>
      match pyIdx sizes ((g.rounds.length : Int) - 1) with
      | some k => some (some k)
      | none => none
    | none => none
  else some none

/-- GameInstance.current_winning_count of game.py. -/
def GameInstance.current_winning_count (g : GameInstance) : Option (Option Nat) :=
  if g.state ≠ .NOT_STARTED ∧ g.state ≠ .GAME_OVER then
    match g.rounds.getLast? with
    | some r => some (some r.winning_count)
    | none => none
  else some none

/-- GameInstance.leader of game.py: players[leader_idx] outside NOT_STARTED
and GAME_OVER (Python indexing, so -1 denotes the last registered player),
None otherwise. -/
def GameInstance.leader (g : GameInstance) : Option (Option Player) :=
  if g.state ≠ .NOT_STARTED ∧ g.state ≠ .GAME_OVER then
    match pyIdx g.players g.leader_idx with
    | some p => some (some p)
    | none => none
  else some none

/-- GameError taxonomy: one constructor per raise site of a GameError in
game.py, in source order. -/
inductive GameError where
  | invalidPlayerCount
  | autoStateChange
  | alreadyStarted
  | alreadyRegistered
  | proposalNotPending
  | notLeader
  | wrongPartySize
  | unknownPlayer
  | partyVoteNotInProgress
  | duplicateVote
  | missionVoteNotInProgress
  | notPartyMember
  | onlySpiesVoteBlack
  | notRegistered
deriving DecidableEq

/-- Failure of a mutating operation: a typed GameError, or an unchecked
Python exception (crash) from an out-of-range index or table lookup. -/
inductive OpError where
  | game : GameError → OpError
  | crash : OpError
deriving DecidableEq

/-- Result of a mutating operation: the new state, or an error paired with
the state of the object at the moment of the raise. -/
abbrev OpResult := Except (OpError × GameInstance) GameInstance

deriving instance DecidableEq for Except

/-- GameInstance._assign_spies of game.py takes its sample from
random.sample(players, spy_count); the sample itself is a parameter of the
embedding, constrained at the step relation.  This is the spy count it
draws: one third of the players, rounded up. -/
def spyCount (n : Nat) : Nat := (n + 2) / 3

/-- GameInstance._next_leader of game.py: advance the leader cursor by one
modulo the player count (Python modulo on a positive divisor agrees with
Int.emod; the zero-divisor ZeroDivisionError is modelled at the call sites). -/
def GameInstance.next_leader (g : GameInstance) : GameInstance :=
  { g with leader_idx := (g.leader_idx + 1) % (g.players.length : Int) }

/-- GameInstance._next_round_or_gameover of game.py: while the game outcome
is undecided, append a fresh Round whose winning_count is 2 exactly when the
player count reaches MIN_2IN4TH and three rounds were already played, and
enter PROPOSAL_PENDING; otherwise enter GAME_OVER. -/
def GameInstance.next_round_or_gameover (g : GameInstance) : GameInstance :=
  match g.outcome with
  | none =>
    { g with rounds := g.rounds ++
        [{ winning_count := if MIN_2IN4TH ≤ g.players.length ∧ g.rounds.length = 3 then 2 else 1,
           votes := [], ballots := [] }],
             state := .PROPOSAL_PENDING }
  | some _ => { g with state := .GAME_OVER }

/-- GameInstance.next_state of game.py (the advance operation), with the
random spy sample passed in as a parameter.  The PARTY_VOTE_RESULTS branch
reads self.current_vote.outcome, which raises when the rounds list is empty
or the current round has no vote yet; _next_leader raises
ZeroDivisionError on an empty player list. -/
def GameInstance.next_state (spies : List Player) (g : GameInstance) : OpResult :=
  match g.state with
  | .NOT_STARTED =>
    if MIN_PLAYERS ≤ g.players.length ∧ g.players.length ≤ MAX_PLAYERS then
      .ok ({ g with spies := spies }).next_round_or_gameover
    else .error (.game .invalidPlayerCount, g)
  | .PARTY_VOTE_RESULTS =>
    match g.rounds.getLast? with
    | none => .error (.crash, g)
    | some r =>
      match r.last_vote with
      | none => .error (.crash, g)
      | some v =>
        if v.outcome then .ok { g with state := .MISSION_VOTE_IN_PROGRESS }
        else if g.players.length = 0 then .error (.crash, g)
        else
          let g1 := g.next_leader
          if r.can_vote then .ok { g1 with state := .PROPOSAL_PENDING }
          else .ok g1.next_round_or_gameover
  | .MISSION_VOTE_RESULTS =>
    if g.players.length = 0 then .error (.crash, g)
    else .ok g.next_leader.next_round_or_gameover
  | _ => .error (.game .autoStateChange, g)

/-- GameInstance.register_player of game.py. -/
def GameInstance.register_player (u : Player) (g : GameInstance) : OpResult :=
  if g.state ≠ .NOT_STARTED then .error (.game .alreadyStarted, g)
  else if u ∈ g.players then .error (.game .alreadyRegistered, g)
  else .ok { g with players := g.players ++ [u] }

/-- GameInstance.propose_party of game.py.  The checks run in source order:
registration of the proposer, phase, leadership (reading the leader
property), party size (reading the current_party_size property),
registration of every proposed member; then the Vote is appended to the
current round. -/
def GameInstance.propose_party (u : Player) (us : List Player) (g : GameInstance) : OpResult :=
  if u ∉ g.players then .error (.game .notRegistered, g)
  else if g.state ≠ .PROPOSAL_PENDING then .error (.game .proposalNotPending, g)
  else
    match pyIdx g.players g.leader_idx with
    | none => .error (.crash, g)
    | some l =>
      if u ≠ l then .error (.game .notLeader, g)
      else
        match PARTY_SIZES g.players.length with
        | none => .error (.crash, g)
        | some sizes =>
          match pyIdx sizes ((g.rounds.length : Int) - 1) with
          | none => .error (.crash, g)
          | some k =>
            if us.length ≠ k then .error (.game .wrongPartySize, g)
            else if ¬ (∀ x ∈ us, x ∈ g.players) then .error (.game .unknownPlayer, g)
            else
              match g.rounds.getLast? with
              | none => .error (.crash, g)
              | some r =>
                .ok { g with
                      rounds := g.rounds.dropLast ++
                        [{ r with votes := r.votes ++ [{ party := us, ballots := [] }] }],
                      state := .PARTY_VOTE_IN_PROGRESS }

/-- GameInstance.vote_party of game.py.  Reading current_vote raises on an
empty rounds list; testing membership in a None current_vote raises a
TypeError; otherwise the ballot is recorded and, once the ballot count
reaches the player count, the phase becomes PARTY_VOTE_RESULTS. -/
def GameInstance.vote_party (u : Player) (b : Bool) (g : GameInstance) : OpResult :=
  if u ∉ g.players then .error (.game .notRegistered, g)
  else if g.state ≠ .PARTY_VOTE_IN_PROGRESS then .error (.game .partyVoteNotInProgress, g)
  else
    match g.rounds.getLast? with
    | none => .error (.crash, g)
    | some r =>
      match r.votes.getLast? with
      | none => .error (.crash, g)
      | some v =>
        if u ∈ v.ballots.map Prod.fst then .error (.game .duplicateVote, g)
        else
          let v' := { v with ballots := v.ballots ++ [(u, b)] }
          let g' := { g with rounds := g.rounds.dropLast ++
                        [{ r with votes := r.votes.dropLast ++ [v'] }] }
          if g.players.length ≤ v'.ballots.length then
            .ok { g' with state := .PARTY_VOTE_RESULTS }
          else .ok g'

/-- GameInstance.vote_mission of game.py.  Reading current_round or
current_party raises when the rounds list is empty or the current round has
no vote; after the ballot is recorded the quorum test reads
current_party_size, whose table lookup can raise after the mutation. -/
def GameInstance.vote_mission (u : Player) (b : Bool) (g : GameInstance) : OpResult :=
  if u ∉ g.players then .error (.game .notRegistered, g)
  else if g.state ≠ .MISSION_VOTE_IN_PROGRESS then .error (.game .missionVoteNotInProgress, g)
  else
    match g.rounds.getLast? with
    | none => .error (.crash, g)
    | some r =>
      if u ∈ r.ballots.map Prod.fst then .error (.game .duplicateVote, g)
      else
        match r.last_vote with
        | none => .error (.crash, g)
        | some v =>
          if u ∉ v.party then .error (.game .notPartyMember, g)
          else if b = false ∧ u ∉ g.spies then .error (.game .onlySpiesVoteBlack, g)
          else
            let r' := { r with ballots := r.ballots ++ [(u, b)] }
            let g' := { g with rounds := g.rounds.dropLast ++ [r'] }
            match g'.current_party_size with
            | some (some k) =>
              if k ≤ r'.ballots.length then .ok { g' with state := .MISSION_VOTE_RESULTS }
              else .ok g'
            | _ => .error (.crash, g')

/-- One invocation of a mutating operation of the engine, with its
arguments; the advance action carries the random spy sample that
random.sample would draw if the game starts on this call. -/
inductive Act where
  | register (u : Player)
  | propose (u : Player) (us : List Player)
  | voteParty (u : Player) (b : Bool)
  | voteMission (u : Player) (b : Bool)
  | advance (spies : List Player)
deriving DecidableEq

/-- Dispatch an action to the corresponding operation of the engine. -/
def applyAction : Act → GameInstance → OpResult
  | .register u, g => g.register_player u
  | .propose u us, g => g.propose_party u us
  | .voteParty u b, g => g.vote_party u b
  | .voteMission u b, g => g.vote_mission u b
  | .advance spies, g => g.next_state spies

/-- The spy sample random.sample(players, spy_count) can produce: distinct
members of the player list, spyCount of them. -/
def validSample (players spies : List Player) : Bool :=
  decide spies.Nodup && spies.all (fun s => decide (s ∈ players)) &&
    decide (spies.length = spyCount players.length)

/-- An action the environment can actually perform: the spy sample carried
by an advance action is only constrained when the call would start the game
(any other action, and advance in any other phase, ignores it). -/
def actionOK (g : GameInstance) : Act → Bool
  | .advance spies => decide (g.state ≠ .NOT_STARTED) || validSample g.players spies
  | _ => true

/-- One successful mutating call of the engine. -/
def Step (g g' : GameInstance) : Prop :=
  ∃ a, actionOK g a = true ∧ applyAction a g = .ok g'

/-- States of the engine reachable from a freshly created game by successful
mutating calls. -/
def Reachable (g : GameInstance) : Prop :=
  Relation.ReflTransGen Step GameInstance.init g

/-- Run a list of actions, failing when an action is invalid for the
environment or rejected by the engine; used to exhibit concrete reachable
states. -/
def runValid : List Act → GameInstance → Option GameInstance
  | [], g => some g
  | a :: as, g =>
    if actionOK g a then
      match applyAction a g with
      | .ok g' => runValid as g'
      | .error _ => none
    else none

theorem runValid_reachable : ∀ (as : List Act) (g g' : GameInstance),
    Reachable g → runValid as g = some g' → Reachable g'
  | [], g, g', hg, h => by
    simp only [runValid] at h
    injection h with h
    exact h ▸ hg
  | a :: as, g, g', hg, h => by
    simp only [runValid] at h
    split at h
    · split at h
      · next g1 heq =>
        exact runValid_reachable as g1 g' (hg.tail ⟨a, by assumption, heq⟩) h
      · exact absurd h (by simp)
    · exact absurd h (by simp)

/-!
Concrete executions, used to exhibit reachable states.  Players are the
user ids 0..n-1 in registration order.
-/

/-- Register the five players 0..4. -/
def regs5 : List Act := [.register 0, .register 1, .register 2, .register 3, .register 4]

/-- Leader u proposes the party us and all five players approve it, then the
engine advances out of PARTY_VOTE_RESULTS. -/
def proposeApprove (u : Player) (us : List Player) : List Act :=
  [.propose u us, .voteParty 0 true, .voteParty 1 true, .voteParty 2 true,
   .voteParty 3 true, .voteParty 4 true, .advance []]

/-- Leader u proposes the party us and all five players reject it, then the
engine advances out of PARTY_VOTE_RESULTS. -/
def rejectBy (u : Player) (us : List Player) : List Act :=
  [.propose u us, .voteParty 0 false, .voteParty 1 false, .voteParty 2 false,
   .voteParty 3 false, .voteParty 4 false, .advance []]

/-- Every member of the party plays a red (true) mission card. -/
def missions (us : List Player) : List Act :=
  us.map (fun u => Act.voteMission u true)

/-- Five players registered, game not yet started. -/
def gNS5 : GameInstance :=
  { state := .NOT_STARTED, players := [0, 1, 2, 3, 4], spies := [],
    rounds := [], leader_idx := -1 }

theorem gNS5_reachable : Reachable gNS5 :=
  runValid_reachable regs5 _ _ Relation.ReflTransGen.refl (by decide)

/-- Five players, game started with spies 0 and 1, first round open. -/
def startTrace : List Act := regs5 ++ [.advance [0, 1]]

def gStart : GameInstance :=
  { state := .PROPOSAL_PENDING, players := [0, 1, 2, 3, 4], spies := [0, 1],
    rounds := [{ winning_count := 1, votes := [], ballots := [] }], leader_idx := -1 }

theorem gStart_reachable : Reachable gStart :=
  runValid_reachable startTrace _ _ Relation.ReflTransGen.refl (by decide)

/-- The first leader (player 4) proposed the party of players 0 and 1. -/
def gPVIP : GameInstance :=
  { state := .PARTY_VOTE_IN_PROGRESS, players := [0, 1, 2, 3, 4], spies := [0, 1],
    rounds := [{ winning_count := 1, votes := [{ party := [0, 1], ballots := [] }],
                 ballots := [] }], leader_idx := -1 }

theorem gPVIP_reachable : Reachable gPVIP :=
  runValid_reachable (startTrace ++ [.propose 4 [0, 1]]) _ _ Relation.ReflTransGen.refl
    (by decide)

/-- All five players approved the proposal of the first leader. -/
def vApp5 : Vote :=
  { party := [0, 1], ballots := [(0, true), (1, true), (2, true), (3, true), (4, true)] }

def gPVR : GameInstance :=
  { state := .PARTY_VOTE_RESULTS, players := [0, 1, 2, 3, 4], spies := [0, 1],
    rounds := [{ winning_count := 1, votes := [vApp5], ballots := [] }], leader_idx := -1 }

theorem gPVR_reachable : Reachable gPVR :=
  runValid_reachable
    (startTrace ++ [.propose 4 [0, 1], .voteParty 0 true, .voteParty 1 true,
      .voteParty 2 true, .voteParty 3 true, .voteParty 4 true]) _ _
    Relation.ReflTransGen.refl (by decide)

/-- A round won by the resistance with party us and all-red ballots bs, as
produced by the concrete traces below. -/
def wonRound (us : List Player) (bs : List (Player × Bool)) : Round :=
  { winning_count := 1, votes := [{ party := us, ballots := [(0, true), (1, true),
      (2, true), (3, true), (4, true)] }], ballots := bs }

/-- Two completed rounds, both won by the resistance, and a freshly opened
third round with no proposal and no mission ballot yet. -/
def twoWinsTrace : List Act := startTrace ++ proposeApprove 4 [0, 1] ++
  missions [0, 1] ++ [.advance []] ++ proposeApprove 0 [0, 1, 2] ++
  missions [0, 1, 2] ++ [.advance []]

def gTwoWins : GameInstance :=
  { state := .PROPOSAL_PENDING, players := [0, 1, 2, 3, 4], spies := [0, 1],
    rounds := [wonRound [0, 1] [(0, true), (1, true)],
               wonRound [0, 1, 2] [(0, true), (1, true), (2, true)],
               { winning_count := 1, votes := [], ballots := [] }],
    leader_idx := 1 }

theorem gTwoWins_reachable : Reachable gTwoWins :=
  runValid_reachable twoWinsTrace _ _ Relation.ReflTransGen.refl (by decide)

/-- Three completed rounds won by the resistance: the game is over. -/
def gOver : GameInstance :=
  { state := .GAME_OVER, players := [0, 1, 2, 3, 4], spies := [0, 1],
    rounds := [wonRound [0, 1] [(0, true), (1, true)],
               wonRound [0, 1, 2] [(0, true), (1, true), (2, true)],
               wonRound [0, 1] [(0, true), (1, true)]],
    leader_idx := 2 }

theorem gOver_reachable : Reachable gOver :=
  runValid_reachable
    (twoWinsTrace ++ proposeApprove 1 [0, 1] ++ missions [0, 1] ++ [.advance []]) _ _
    Relation.ReflTransGen.refl (by decide)

/-- A first round in which four proposals were rejected by everyone, the
fifth proposal was approved by everyone, and both party members then played
red mission cards. -/
def vRej5 : Vote :=
  { party := [0, 1], ballots := [(0, false), (1, false), (2, false), (3, false), (4, false)] }

def rFifth : Round :=
  { winning_count := 1, votes := [vRej5, vRej5, vRej5, vRej5, vApp5],
    ballots := [(0, true), (1, true)] }

def gFifth : GameInstance :=
  { state := .MISSION_VOTE_RESULTS, players := [0, 1, 2, 3, 4], spies := [0, 1],
    rounds := [rFifth], leader_idx := 3 }

theorem gFifth_reachable : Reachable gFifth :=
  runValid_reachable
    (startTrace ++ rejectBy 4 [0, 1] ++ rejectBy 0 [0, 1] ++ rejectBy 1 [0, 1] ++
      rejectBy 2 [0, 1] ++ proposeApprove 3 [0, 1] ++ missions [0, 1]) _ _
    Relation.ReflTransGen.refl (by decide)

/-- A seven-player game (spies 0, 1, 2) in which the resistance won rounds
one and three, the spies won round two, and the fourth round has just been
opened: its winning_count is 2. -/
def regs7 : List Act := [.register 0, .register 1, .register 2, .register 3, .register 4,
  .register 5, .register 6]

def proposeApprove7 (u : Player) (us : List Player) : List Act :=
  [.propose u us, .voteParty 0 true, .voteParty 1 true, .voteParty 2 true,
   .voteParty 3 true, .voteParty 4 true, .voteParty 5 true, .voteParty 6 true, .advance []]

def ballots7 : List (Player × Bool) :=
  [(0, true), (1, true), (2, true), (3, true), (4, true), (5, true), (6, true)]

def g7r4 : GameInstance :=
  { state := .PROPOSAL_PENDING, players := [0, 1, 2, 3, 4, 5, 6], spies := [0, 1, 2],
    rounds := [{ winning_count := 1, votes := [{ party := [0, 1], ballots := ballots7 }],
                 ballots := [(0, true), (1, true)] },
               { winning_count := 1, votes := [{ party := [0, 1, 2], ballots := ballots7 }],
                 ballots := [(0, false), (1, true), (2, true)] },
               { winning_count := 1, votes := [{ party := [3, 4, 5], ballots := ballots7 }],
                 ballots := [(3, true), (4, true), (5, true)] },
               { winning_count := 2, votes := [], ballots := [] }],
    leader_idx := 2 }

theorem g7r4_reachable : Reachable g7r4 :=
  runValid_reachable
    (regs7 ++ [.advance [0, 1, 2]] ++
      proposeApprove7 6 [0, 1] ++ missions [0, 1] ++ [.advance []] ++
      proposeApprove7 0 [0, 1, 2] ++ [.voteMission 0 false] ++ missions [1, 2] ++
      [.advance []] ++
      proposeApprove7 1 [3, 4, 5] ++ missions [3, 4, 5] ++ [.advance []]) _ _
    Relation.ReflTransGen.refl (by decide)

/-!
The reachability invariant: well-formedness facts that hold in every
reachable state of a GameInstance and are preserved by every successful
mutating call.
-/

/-- Well-formedness of the ballot dictionary of a party-proposal vote:
unique keys, all registered. -/
structure VoteWF (players : List Player) (v : Vote) : Prop where
  keys_nodup : (v.ballots.map Prod.fst).Nodup
  keys_mem : ∀ p ∈ v.ballots.map Prod.fst, p ∈ players

/-- Well-formedness of the round stored at index i of the rounds list. -/
structure RoundWF (players : List Player) (i : Nat) (r : Round) : Prop where
  votes_le : r.votes.length ≤ VOTE_LIMIT
  wc_eq : r.winning_count = if MIN_2IN4TH ≤ players.length ∧ i = 3 then 2 else 1
  keys_nodup : (r.ballots.map Prod.fst).Nodup
  keys_mem : ∀ p ∈ r.ballots.map Prod.fst, p ∈ players
  votes_wf : ∀ v ∈ r.votes, VoteWF players v

/-- The four phases during which the current round necessarily has at least
one party proposal. -/
def votingState (s : GameState) : Prop :=
  s = .PARTY_VOTE_IN_PROGRESS ∨ s = .PARTY_VOTE_RESULTS ∨
  s = .MISSION_VOTE_IN_PROGRESS ∨ s = .MISSION_VOTE_RESULTS

/-- Invariant of reachable GameInstance states. -/
structure GameInv (g : GameInstance) : Prop where
  players_nodup : g.players.Nodup
  fresh_spies : g.state = .NOT_STARTED → g.spies = []
  fresh_rounds : g.state = .NOT_STARTED → g.rounds = []
  fresh_leader : g.state = .NOT_STARTED → g.leader_idx = -1
  players_lo : g.state ≠ .NOT_STARTED → MIN_PLAYERS ≤ g.players.length
  players_hi : g.state ≠ .NOT_STARTED → g.players.length ≤ MAX_PLAYERS
  spies_nodup : g.spies.Nodup
  spies_mem : ∀ s ∈ g.spies, s ∈ g.players
  spies_len : g.state ≠ .NOT_STARTED → g.spies.length = spyCount g.players.length
  rounds_nonempty : g.state ≠ .NOT_STARTED → g.rounds ≠ []
  rounds_le : g.rounds.length ≤ 5
  leader_lo : -1 ≤ g.leader_idx
  leader_hi : g.leader_idx < (g.players.length : Int)
  rounds_wf : ∀ i r, g.rounds.get? i = some r → RoundWF g.players i r
  voting_votes : votingState g.state → ∀ r, g.rounds.getLast? = some r → r.votes ≠ []
  pp_votes : g.state = .PROPOSAL_PENDING → ∀ r, g.rounds.getLast? = some r →
    r.votes.length < VOTE_LIMIT
  go_outcome : g.state = .GAME_OVER → ∃ b, g.outcome = some b

theorem count_true_add_count_false (l : List Bool) :
    l.count true + l.count false = l.length := by
  induction l with
  | nil => rfl
  | cons b l ih => cases b <;> simp [List.count_cons] <;> omega

/-- A game whose outcome is still undecided has fewer than five rounds:
every stored round contributes one boolean outcome, and five booleans
always give one side at least three. -/
theorem outcome_none_length {g : GameInstance} (h : g.outcome = none) :
    g.rounds.length ≤ 4 := by
  unfold GameInstance.outcome at h
  split at h
  · exact absurd h (by simp)
  next h1 =>
    split at h
    · exact absurd h (by simp)
    next h2 =>
      have hc := count_true_add_count_false (g.rounds.map Round.outcome)
      rw [List.length_map] at hc
      unfold WIN_LIMIT at h1 h2
      omega

/-- A decided game has a nonempty rounds list. -/
theorem outcome_some_ne_nil {g : GameInstance} {b : Bool} (h : g.outcome = some b) :
    g.rounds ≠ [] := by
  intro hnil
  unfold GameInstance.outcome at h
  rw [hnil] at h
  simp [WIN_LIMIT] at h

theorem getLast?_mem' {α : Type} {l : List α} {a : α} (h : l.getLast? = some a) : a ∈ l := by
  rw [List.getLast?_eq_get?] at h
  exact List.get?_mem h

theorem nodup_concat {α : Type} {l : List α} {x : α} (h : l.Nodup) (hx : x ∉ l) :
    (l ++ [x]).Nodup := by
  rw [List.nodup_append]
  exact ⟨h, List.nodup_singleton x, fun a ha hax => hx ((List.mem_singleton.mp hax) ▸ ha)⟩

/-- Index lookup after replacing the last element of a nonempty list. -/
theorem get?_updateLast {α : Type} (l0 : List α) (y x : α) (i : Nat) :
    ((l0 ++ [y]).dropLast ++ [x]).get? i =
      if i = l0.length then some x else (l0 ++ [y]).get? i := by
  rw [List.dropLast_concat]
  rcases Nat.lt_trichotomy i l0.length with h | h | h
  · rw [if_neg (by omega), List.get?_append h, List.get?_append h]
  · subst h
    rw [if_pos rfl, List.get?_concat_length]
  · rw [if_neg (by omega), List.get?_eq_none.mpr (by simp; omega),
      List.get?_eq_none.mpr (by simp; omega)]

/-- The invariant holds for a freshly constructed game. -/
theorem init_inv : GameInv GameInstance.init := by
  refine ⟨?_, ?_, ?_, ?_, ?_, ?_, ?_, ?_, ?_, ?_, ?_, ?_, ?_, ?_, ?_, ?_, ?_⟩ <;>
    simp [GameInstance.init, votingState]

/-- _next_round_or_gameover re-establishes the invariant from the facts
that survive a round transition (it reads neither the phase nor the ballot
contents, only the round outcomes). -/
theorem nro_inv {g : GameInstance}
    (hnd : g.players.Nodup)
    (hlo : MIN_PLAYERS ≤ g.players.length) (hhi : g.players.length ≤ MAX_PLAYERS)
    (hsn : g.spies.Nodup) (hsm : ∀ s ∈ g.spies, s ∈ g.players)
    (hsl : g.spies.length = spyCount g.players.length)
    (hllo : -1 ≤ g.leader_idx) (hlhi : g.leader_idx < (g.players.length : Int))
    (hrw : ∀ i r, g.rounds.get? i = some r → RoundWF g.players i r)
    (hr5 : g.rounds.length ≤ 5) :
    GameInv g.next_round_or_gameover := by
  unfold GameInstance.next_round_or_gameover
  split
  next hnone =>
    have hlen : g.rounds.length ≤ 4 := outcome_none_length hnone
    refine ⟨hnd, by simp, by simp, by simp, fun _ => hlo, fun _ => hhi, hsn, hsm,
      fun _ => hsl, fun _ => by simp, by simp; omega, hllo, hlhi, ?_, ?_, ?_, by simp⟩
    · intro i r hr
      rcases Nat.lt_trichotomy i g.rounds.length with h | h | h
      · rw [List.get?_append h] at hr
        exact hrw i r hr
      · subst h
        rw [List.get?_concat_length] at hr
        injection hr with hr
        subst hr
        exact ⟨by simp [VOTE_LIMIT], rfl, by simp, by simp, by simp⟩
      · rw [List.get?_eq_none.mpr (by simp; omega)] at hr
        cases hr
    · intro hv
      simp [votingState] at hv
    · intro _ r hr
      simp only [List.getLast?_concat] at hr
      injection hr with hr
      subst hr
      simp [VOTE_LIMIT]
  next b hsome =>
    refine ⟨hnd, by simp, by simp, by simp, fun _ => hlo, fun _ => hhi, hsn, hsm,
      fun _ => hsl, fun _ => outcome_some_ne_nil hsome, hr5, hllo, hlhi,
      fun i r hr => hrw i r hr, ?_, ?_, fun _ => ⟨b, hsome⟩⟩
    · intro hv
      simp [votingState] at hv
    · intro hpp
      simp at hpp

/-- register_player preserves the invariant. -/
theorem register_inv {g g' : GameInstance} {u : Player}
    (hInv : GameInv g) (h : g.register_player u = .ok g') : GameInv g' := by
  unfold GameInstance.register_player at h
  split at h
  · exact absurd h (by simp)
  next hstate =>
    split at h
    · exact absurd h (by simp)
    next hmem =>
      have hns : g.state = .NOT_STARTED := not_not.mp hstate
      injection h with h
      subst h
      refine ⟨nodup_concat hInv.players_nodup hmem,
        fun _ => hInv.fresh_spies hns, fun _ => hInv.fresh_rounds hns,
        fun _ => hInv.fresh_leader hns,
        fun hc => absurd hns hc, fun hc => absurd hns hc,
        hInv.spies_nodup,
        fun s hs => List.mem_append_left _ (hInv.spies_mem s hs),
        fun hc => absurd hns hc,
        fun hc => absurd hns hc,
        hInv.rounds_le, hInv.leader_lo, ?_, ?_, ?_, ?_, ?_⟩
      · have := hInv.leader_hi
        simp only [List.length_append, List.length_cons, List.length_nil]
        omega
      · intro i r hr
        have hwf := hInv.rounds_wf i r hr
        exact ⟨hwf.votes_le, by rw [hwf.wc_eq, hInv.fresh_rounds hns] at *; simp at hr,
          hwf.keys_nodup, fun p hp => List.mem_append_left _ (hwf.keys_mem p hp),
          fun v hv => ⟨(hwf.votes_wf v hv).keys_nodup,
            fun p hp => List.mem_append_left _ ((hwf.votes_wf v hv).keys_mem p hp)⟩⟩
      · intro hv
        rw [hns] at hv
        simp [votingState] at hv
      · intro hpp
        rw [hns] at hpp
        cases hpp
      · intro hgo
        rw [hns] at hgo
        cases hgo

theorem ne_nil_of_getLast? {α : Type} {l : List α} {a : α} (h : l.getLast? = some a) :
    l ≠ [] := by
  intro hnil
  rw [hnil] at h
  cases h

theorem length_updateLast {α : Type} {l : List α} (h : l ≠ []) (x : α) :
    (l.dropLast ++ [x]).length = l.length := by
  have := List.length_pos.mpr h
  simp [List.length_dropLast]
  omega

/-- Replacing the last round of the rounds list preserves per-index
well-formedness, given well-formedness of the replacement at the last
index. -/
theorem rounds_wf_updateLast {players : List Player} {rs : List Round} {r r' : Round}
    (hlast : rs.getLast? = some r)
    (hwf : ∀ i rr, rs.get? i = some rr → RoundWF players i rr)
    (hr' : RoundWF players (rs.length - 1) r') :
    ∀ i rr, (rs.dropLast ++ [r']).get? i = some rr → RoundWF players i rr := by
  intro i rr hget
  have hsplit := List.dropLast_append_getLast? r hlast
  have hlen : rs.dropLast.length = rs.length - 1 := List.length_dropLast rs
  have hne := ne_nil_of_getLast? hlast
  have hpos := List.length_pos.mpr hne
  rcases Nat.lt_trichotomy i rs.dropLast.length with hc | hc | hc
  · rw [List.get?_append hc] at hget
    have h2 : rs.get? i = some rr := by
      conv_lhs => rw [← hsplit]
      rw [List.get?_append hc]
      exact hget
    exact hwf i rr h2
  · subst hc
    rw [List.get?_concat_length] at hget
    injection hget with hget
    subst hget
    rw [hlen]
    exact hr'
  · rw [List.get?_eq_none.mpr (by simp; omega)] at hget
    cases hget

/-- propose_party preserves the invariant. -/
theorem propose_inv {g g' : GameInstance} {u : Player} {us : List Player}
    (hInv : GameInv g) (h : g.propose_party u us = .ok g') : GameInv g' := by
  unfold GameInstance.propose_party at h
  split at h
  · exact absurd h (by simp)
  next hu0 =>
  split at h
  · exact absurd h (by simp)
  next hstate =>
  have hpp : g.state = .PROPOSAL_PENDING := not_not.mp hstate
  have hns' : g.state ≠ .NOT_STARTED := by rw [hpp]; intro hc; cases hc
  split at h
  · exact absurd h (by simp)
  next l hl =>
  split at h
  · exact absurd h (by simp)
  next hul =>
  split at h
  · exact absurd h (by simp)
  next sizes hsizes =>
  split at h
  · exact absurd h (by simp)
  next k hk =>
  split at h
  · exact absurd h (by simp)
  next hlen =>
  split at h
  · exact absurd h (by simp)
  next hall =>
  split at h
  · exact absurd h (by simp)
  next r hlast =>
  injection h with h
  subst h
  have hne := ne_nil_of_getLast? hlast
  have hwfold : RoundWF g.players (g.rounds.length - 1) r := by
    have hg := hlast
    rw [List.getLast?_eq_get?] at hg
    exact hInv.rounds_wf _ r hg
  have hv5 : r.votes.length < VOTE_LIMIT := hInv.pp_votes hpp r hlast
  refine ⟨hInv.players_nodup, by simp, by simp, by simp,
    fun _ => hInv.players_lo hns', fun _ => hInv.players_hi hns',
    hInv.spies_nodup, hInv.spies_mem, fun _ => hInv.spies_len hns',
    fun _ => by simp, ?_, hInv.leader_lo, hInv.leader_hi, ?_, ?_, ?_, by simp⟩
  · rw [length_updateLast hne]
    exact hInv.rounds_le
  · refine rounds_wf_updateLast hlast hInv.rounds_wf
      ⟨?_, hwfold.wc_eq, hwfold.keys_nodup, hwfold.keys_mem, ?_⟩
    · simp only [List.length_append, List.length_cons, List.length_nil]
      unfold VOTE_LIMIT at *
      omega
    · intro v hv
      rcases List.mem_append.mp hv with hv | hv
      · exact hwfold.votes_wf v hv
      · rw [List.mem_singleton.mp hv]
        exact ⟨List.nodup_nil, by simp⟩
  · intro _ r'' hr''
    simp only [List.getLast?_concat] at hr''
    injection hr'' with hr''
    subst hr''
    simp
  · intro hc
    simp at hc

/-- vote_party preserves the invariant. -/
theorem vote_party_inv {g g' : GameInstance} {u : Player} {b : Bool}
    (hInv : GameInv g) (h : g.vote_party u b = .ok g') : GameInv g' := by
  unfold GameInstance.vote_party at h
  split at h
  · exact absurd h (by simp)
  next hu0 =>
  split at h
  · exact absurd h (by simp)
  next hstate =>
  have hpvip : g.state = .PARTY_VOTE_IN_PROGRESS := not_not.mp hstate
  have hns' : g.state ≠ .NOT_STARTED := by rw [hpvip]; intro hc; cases hc
  have hu : u ∈ g.players := not_not.mp hu0
  split at h
  · exact absurd h (by simp)
  next r hlast =>
  split at h
  · exact absurd h (by simp)
  next v hvlast =>
  split at h
  · exact absurd h (by simp)
  next hdup =>
  have hne := ne_nil_of_getLast? hlast
  have hvne := ne_nil_of_getLast? hvlast
  have hwfold : RoundWF g.players (g.rounds.length - 1) r := by
    have hg := hlast
    rw [List.getLast?_eq_get?] at hg
    exact hInv.rounds_wf _ r hg
  have hvwf : VoteWF g.players v := hwfold.votes_wf v (getLast?_mem' hvlast)
  have hr' : RoundWF g.players (g.rounds.length - 1)
      { r with votes := r.votes.dropLast ++ [{ v with ballots := v.ballots ++ [(u, b)] }] } := by
    refine ⟨?_, hwfold.wc_eq, hwfold.keys_nodup, hwfold.keys_mem, ?_⟩
    · rw [length_updateLast hvne]
      exact hwfold.votes_le
    · intro w hw
      rcases List.mem_append.mp hw with hw | hw
      · exact hwfold.votes_wf w (List.dropLast_subset _ hw)
      · rw [List.mem_singleton.mp hw]
        refine ⟨?_, ?_⟩
        · simp only [List.map_append, List.map_cons, List.map_nil]
          exact nodup_concat hvwf.keys_nodup hdup
        · intro p hp
          simp only [List.map_append, List.map_cons, List.map_nil] at hp
          rcases List.mem_append.mp hp with hp | hp
          · exact hvwf.keys_mem p hp
          · rw [List.mem_singleton.mp hp]
            exact hu
  have hcore : ∀ s : GameState, votingState s → s ≠ .NOT_STARTED →
      s ≠ .PROPOSAL_PENDING → s ≠ .GAME_OVER →
      GameInv { g with
        rounds := g.rounds.dropLast ++
          [{ r with votes := r.votes.dropLast ++ [{ v with ballots := v.ballots ++ [(u, b)] }] }],
        state := s } := by
    intro s hsv hsns hspp hsgo
    refine ⟨hInv.players_nodup, fun hc => absurd hc hsns, fun hc => absurd hc hsns,
      fun hc => absurd hc hsns,
      fun _ => hInv.players_lo hns', fun _ => hInv.players_hi hns',
      hInv.spies_nodup, hInv.spies_mem, fun _ => hInv.spies_len hns',
      fun _ => by simp, ?_, hInv.leader_lo, hInv.leader_hi,
      rounds_wf_updateLast hlast hInv.rounds_wf hr', ?_, fun hc => absurd hc hspp,
      fun hc => absurd hc hsgo⟩
    · rw [length_updateLast hne]
      exact hInv.rounds_le
    · intro _ r'' hr''
      simp only [List.getLast?_concat] at hr''
      injection hr'' with hr''
      subst hr''
      simp
  simp only [] at h
  split at h
  · injection h with h
    subst h
    exact hcore _ (by simp [votingState]) (by intro hc; cases hc) (by intro hc; cases hc)
      (by intro hc; cases hc)
  · injection h with h
    subst h
    exact hcore _ (Or.inl hpvip) (by rw [hpvip]; intro hc; cases hc)
      (by rw [hpvip]; intro hc; cases hc) (by rw [hpvip]; intro hc; cases hc)

/-- vote_mission preserves the invariant. -/
theorem vote_mission_inv {g g' : GameInstance} {u : Player} {b : Bool}
    (hInv : GameInv g) (h : g.vote_mission u b = .ok g') : GameInv g' := by
  unfold GameInstance.vote_mission at h
  split at h
  · exact absurd h (by simp)
  next hu0 =>
  split at h
  · exact absurd h (by simp)
  next hstate =>
  have hmvip : g.state = .MISSION_VOTE_IN_PROGRESS := not_not.mp hstate
  have hns' : g.state ≠ .NOT_STARTED := by rw [hmvip]; intro hc; cases hc
  have hu : u ∈ g.players := not_not.mp hu0
  split at h
  · exact absurd h (by simp)
  next r hlast =>
  split at h
  · exact absurd h (by simp)
  next hdup =>
  split at h
  · exact absurd h (by simp)
  next v hvlast =>
  split at h
  · exact absurd h (by simp)
  next hparty =>
  split at h
  · exact absurd h (by simp)
  next hspy =>
  have hne := ne_nil_of_getLast? hlast
  have hwfold : RoundWF g.players (g.rounds.length - 1) r := by
    have hg := hlast
    rw [List.getLast?_eq_get?] at hg
    exact hInv.rounds_wf _ r hg
  have hvotes : r.votes ≠ [] :=
    hInv.voting_votes (by rw [hmvip]; simp [votingState]) r hlast
  have hr' : RoundWF g.players (g.rounds.length - 1)
      { r with ballots := r.ballots ++ [(u, b)] } := by
    refine ⟨hwfold.votes_le, hwfold.wc_eq, ?_, ?_, hwfold.votes_wf⟩
    · simp only [List.map_append, List.map_cons, List.map_nil]
      exact nodup_concat hwfold.keys_nodup hdup
    · intro p hp
      simp only [List.map_append, List.map_cons, List.map_nil] at hp
      rcases List.mem_append.mp hp with hp | hp
      · exact hwfold.keys_mem p hp
      · rw [List.mem_singleton.mp hp]
        exact hu
  have hcore : ∀ s : GameState, votingState s → s ≠ .NOT_STARTED →
      s ≠ .PROPOSAL_PENDING → s ≠ .GAME_OVER →
      GameInv { g with
        rounds := g.rounds.dropLast ++ [{ r with ballots := r.ballots ++ [(u, b)] }],
        state := s } := by
    intro s hsv hsns hspp hsgo
    refine ⟨hInv.players_nodup, fun hc => absurd hc hsns, fun hc => absurd hc hsns,
      fun hc => absurd hc hsns,
      fun _ => hInv.players_lo hns', fun _ => hInv.players_hi hns',
      hInv.spies_nodup, hInv.spies_mem, fun _ => hInv.spies_len hns',
      fun _ => by simp, ?_, hInv.leader_lo, hInv.leader_hi,
      rounds_wf_updateLast hlast hInv.rounds_wf hr', ?_, fun hc => absurd hc hspp,
      fun hc => absurd hc hsgo⟩
    · rw [length_updateLast hne]
      exact hInv.rounds_le
    · intro _ r'' hr''
      simp only [List.getLast?_concat] at hr''
      injection hr'' with hr''
      subst hr''
      exact hvotes
  simp only [] at h
  split at h
  · next k hk =>
    split at h
    · injection h with h
      subst h
      exact hcore _ (by simp [votingState]) (by intro hc; cases hc) (by intro hc; cases hc)
        (by intro hc; cases hc)
    · injection h with h
      subst h
      exact hcore _ (Or.inr (Or.inr (Or.inl hmvip))) (by rw [hmvip]; intro hc; cases hc)
        (by rw [hmvip]; intro hc; cases hc) (by rw [hmvip]; intro hc; cases hc)
  · exact absurd h (by simp)

/-- next_state preserves the invariant (the spy sample must be valid when
the call starts the game). -/
theorem next_state_inv {g g' : GameInstance} {spies : List Player}
    (hInv : GameInv g)
    (hs : g.state = .NOT_STARTED → validSample g.players spies = true)
    (h : g.next_state spies = .ok g') : GameInv g' := by
  unfold GameInstance.next_state at h
  split at h
  -- from NOT_STARTED
  next hns =>
    split at h
    · next hcnt =>
      injection h with h
      subst h
      have hsam := hs hns
      unfold validSample at hsam
      simp only [Bool.and_eq_true, decide_eq_true_eq, List.all_eq_true] at hsam
      obtain ⟨⟨hnd, hmem⟩, hlen⟩ := hsam
      refine nro_inv hInv.players_nodup hcnt.1 hcnt.2 hnd ?_ hlen
        hInv.leader_lo hInv.leader_hi ?_ hInv.rounds_le
      · intro s hs'
        exact hmem s hs'
      · intro i r hr
        rw [hInv.fresh_rounds hns] at hr
        simp at hr
    · exact absurd h (by simp)
  -- from PARTY_VOTE_RESULTS
  next hpvr =>
    split at h
    · exact absurd h (by simp)
    next r hlast =>
    split at h
    · exact absurd h (by simp)
    next v hvlast =>
    have hns' : g.state ≠ .NOT_STARTED := by rw [hpvr]; intro hc; cases hc
    have hvoting : votingState g.state := by rw [hpvr]; simp [votingState]
    split at h
    · -- approval: to MISSION_VOTE_IN_PROGRESS
      injection h with h
      subst h
      refine ⟨hInv.players_nodup, by simp, by simp, by simp,
        fun _ => hInv.players_lo hns', fun _ => hInv.players_hi hns',
        hInv.spies_nodup, hInv.spies_mem, fun _ => hInv.spies_len hns',
        fun _ => hInv.rounds_nonempty hns', hInv.rounds_le,
        hInv.leader_lo, hInv.leader_hi, hInv.rounds_wf, ?_, (by intro hc; cases hc),
        (by intro hc; cases hc)⟩
      intro _ r'' hr''
      exact hInv.voting_votes hvoting r'' hr''
    · split at h
      · exact absurd h (by simp)
      next hn0 =>
      have hnpos : 0 < g.players.length := Nat.pos_of_ne_zero hn0
      have hemod_lo : (0 : Int) ≤ (g.leader_idx + 1) % (g.players.length : Int) :=
        Int.emod_nonneg _ (by exact_mod_cast Nat.pos_iff_ne_zero.mp hnpos)
      have hemod_hi : (g.leader_idx + 1) % (g.players.length : Int) < g.players.length :=
        Int.emod_lt_of_pos _ (by exact_mod_cast hnpos)
      simp only [] at h
      split at h
      · next hcan =>
        injection h with h
        subst h
        refine ⟨hInv.players_nodup, by simp, by simp, by simp,
          fun _ => hInv.players_lo hns', fun _ => hInv.players_hi hns',
          hInv.spies_nodup, hInv.spies_mem, fun _ => hInv.spies_len hns',
          fun _ => hInv.rounds_nonempty hns', hInv.rounds_le,
          by simp [GameInstance.next_leader]; omega,
          by simp [GameInstance.next_leader]; omega,
          hInv.rounds_wf, ?_, ?_, by intro hc; cases hc⟩
        · intro hc
          simp [votingState] at hc
        · intro _ r'' hr''
          simp only [GameInstance.next_leader] at hr''
          rw [hlast] at hr''
          injection hr'' with hr''
          subst hr''
          simp only [Round.can_vote, decide_eq_true_eq] at hcan
          exact hcan
      · injection h with h
        subst h
        refine nro_inv hInv.players_nodup (hInv.players_lo hns') (hInv.players_hi hns')
          hInv.spies_nodup hInv.spies_mem (hInv.spies_len hns') ?_ ?_
          hInv.rounds_wf hInv.rounds_le
        · simp [GameInstance.next_leader]
          omega
        · simp [GameInstance.next_leader]
          omega
  -- from MISSION_VOTE_RESULTS
  next hmvr =>
    have hns' : g.state ≠ .NOT_STARTED := by rw [hmvr]; intro hc; cases hc
    split at h
    · exact absurd h (by simp)
    next hn0 =>
    have hnpos : 0 < g.players.length := Nat.pos_of_ne_zero hn0
    have hemod_lo : (0 : Int) ≤ (g.leader_idx + 1) % (g.players.length : Int) :=
      Int.emod_nonneg _ (by exact_mod_cast Nat.pos_iff_ne_zero.mp hnpos)
    have hemod_hi : (g.leader_idx + 1) % (g.players.length : Int) < g.players.length :=
      Int.emod_lt_of_pos _ (by exact_mod_cast hnpos)
    injection h with h
    subst h
    refine nro_inv hInv.players_nodup (hInv.players_lo hns') (hInv.players_hi hns')
      hInv.spies_nodup hInv.spies_mem (hInv.spies_len hns') ?_ ?_
      hInv.rounds_wf hInv.rounds_le
    · simp [GameInstance.next_leader]
      omega
    · simp [GameInstance.next_leader]
      omega
  -- any other phase
  · exact absurd h (by simp)

/-- Every successful mutating call preserves the invariant. -/
theorem step_inv {g g' : GameInstance} (hInv : GameInv g) (hstep : Step g g') :
    GameInv g' := by
  obtain ⟨a, hok, happ⟩ := hstep
  cases a with
  | register u => exact register_inv hInv happ
  | propose u us => exact propose_inv hInv happ
  | voteParty u b => exact vote_party_inv hInv happ
  | voteMission u b => exact vote_mission_inv hInv happ
  | advance spies =>
    refine next_state_inv hInv ?_ happ
    intro hns
    unfold actionOK at hok
    rw [hns] at hok
    simpa using hok

/-- The invariant holds in every reachable state. -/
theorem reachable_inv {g : GameInstance} (h : Reachable g) : GameInv g := by
  induction h with
  | refl => exact init_inv
  | tail hsteps hstep ih => exact step_inv ih hstep

/-- Python indexing succeeds exactly on indices in [-len, len). -/
theorem pyIdx_isSome {α : Type} (xs : List α) (i : Int)
    (h1 : -(xs.length : Int) ≤ i) (h2 : i < (xs.length : Int)) :
    (pyIdx xs i).isSome := by
  unfold pyIdx
  split
  · next hneg =>
    rw [if_neg (by omega)]
    have hlt : (i + xs.length).toNat < xs.length := by omega
    rw [List.get?_eq_get hlt]
    rfl
  · next hpos =>
    have hlt : i.toNat < xs.length := by omega
    rw [List.get?_eq_get hlt]
    rfl

/-- Every in-range player count has a five-entry row in the party size
table. -/
theorem party_sizes_length {n : Nat} (h5 : MIN_PLAYERS ≤ n) (h10 : n ≤ MAX_PLAYERS) :
    ∃ sizes, PARTY_SIZES n = some sizes ∧ sizes.length = 5 := by
  unfold MIN_PLAYERS at h5
  unfold MAX_PLAYERS at h10
  interval_cases n <;> exact ⟨_, rfl, rfl⟩

/-- C4: in every reachable state of a GameInstance, every read-only derived
query (current_round, current_vote, current_party, current_party_size,
current_winning_count, leader, outcome) is total: it returns a defined
value or the defined no-value result None and never raises, i.e. every
internal list index and table lookup these queries perform is in bounds
(the outer Option of each embedded query is some; outcome is a total count
over the rounds list, returning none or a boolean). -/
theorem queries_total (g : GameInstance) (h : Reachable g) :
    g.current_round.isSome = true ∧ g.current_vote.isSome = true ∧
    g.current_party.isSome = true ∧ g.current_party_size.isSome = true ∧
    g.current_winning_count.isSome = true ∧ g.leader.isSome = true ∧
    (g.outcome = none ∨ ∃ b, g.outcome = some b) := by
  have hInv := reachable_inv h
  refine ⟨?_, ?_, ?_, ?_, ?_, ?_, ?_⟩
  · unfold GameInstance.current_round
    split
    · next hc =>
      obtain ⟨r, hr⟩ := Option.isSome_iff_exists.mp
        (List.getLast?_isSome.mpr (hInv.rounds_nonempty hc.1))
      simp [hr]
    · rfl
  · unfold GameInstance.current_vote
    split
    · next hc =>
      have hns : g.state ≠ .NOT_STARTED := by
        rcases hc with hc | hc <;> rw [hc] <;> intro hcc <;> cases hcc
      obtain ⟨r, hr⟩ := Option.isSome_iff_exists.mp
        (List.getLast?_isSome.mpr (hInv.rounds_nonempty hns))
      simp [hr]
    · rfl
  · unfold GameInstance.current_party
    split
    · next hc =>
      have hvs : votingState g.state := hc
      have hns : g.state ≠ .NOT_STARTED := by
        rcases hc with hc | hc | hc | hc <;> rw [hc] <;> intro hcc <;> cases hcc
      obtain ⟨r, hr⟩ := Option.isSome_iff_exists.mp
        (List.getLast?_isSome.mpr (hInv.rounds_nonempty hns))
      obtain ⟨v, hv⟩ := Option.isSome_iff_exists.mp
        (List.getLast?_isSome.mpr (hInv.voting_votes hvs r hr))
      simp [hr, Round.last_vote, hv]
    · rfl
  · unfold GameInstance.current_party_size
    split
    · next hc =>
      obtain ⟨sizes, hsz, hlen5⟩ :=
        party_sizes_length (hInv.players_lo hc.1) (hInv.players_hi hc.1)
      rw [hsz]
      have hrpos : 0 < g.rounds.length := List.length_pos.mpr (hInv.rounds_nonempty hc.1)
      have hr5 := hInv.rounds_le
      obtain ⟨k, hk⟩ := Option.isSome_iff_exists.mp
        (pyIdx_isSome sizes ((g.rounds.length : Int) - 1)
          (by rw [hlen5]; omega) (by rw [hlen5]; omega))
      simp [hk]
    · rfl
  · unfold GameInstance.current_winning_count
    split
    · next hc =>
      obtain ⟨r, hr⟩ := Option.isSome_iff_exists.mp
        (List.getLast?_isSome.mpr (hInv.rounds_nonempty hc.1))
      simp [hr]
    · rfl
  · unfold GameInstance.leader
    split
    · next hc =>
      have h5 : 5 ≤ g.players.length := hInv.players_lo hc.1
      have h1 := hInv.leader_lo
      obtain ⟨p, hp⟩ := Option.isSome_iff_exists.mp
        (pyIdx_isSome g.players g.leader_idx (by omega) hInv.leader_hi)
      simp [hp]
    · rfl
  · cases hout : g.outcome with
    | none => exact Or.inl rfl
    | some b => exact Or.inr ⟨b, rfl⟩

/-- C4 witness: the queries of the concrete reachable started game. -/
theorem queries_total_witness :
    gStart.current_round.isSome = true ∧ gStart.current_vote.isSome = true ∧
    gStart.current_party.isSome = true ∧ gStart.current_party_size.isSome = true ∧
    gStart.current_winning_count.isSome = true ∧ gStart.leader.isSome = true ∧
    (gStart.outcome = none ∨ ∃ b, gStart.outcome = some b) :=
  queries_total gStart gStart_reachable

/-- A successful result, as a boolean test. -/
def resOk : OpResult → Bool
  | .ok _ => true
  | .error _ => false

theorem resOk_exists {x : OpResult} (h : resOk x = true) : ∃ g', x = .ok g' := by
  cases x with
  | error e => simp [resOk] at h
  | ok g' => exact ⟨g', rfl⟩

/-- register_player never raises an unchecked exception and leaves the
state unchanged on a GameError. -/
theorem register_dichotomy (g : GameInstance) (u : Player) :
    (∃ g', g.register_player u = .ok g') ∨
      ∃ e, g.register_player u = .error (.game e, g) := by
  by_cases h1 : g.state = .NOT_STARTED
  · by_cases h2 : u ∈ g.players
    · exact Or.inr ⟨.alreadyRegistered, by simp [GameInstance.register_player, h1, h2]⟩
    · exact Or.inl (resOk_exists (by simp [GameInstance.register_player, h1, h2, resOk]))
  · exact Or.inr ⟨.alreadyStarted, by simp [GameInstance.register_player, h1]⟩

/-- propose_party on a reachable state never raises an unchecked exception
and leaves the state unchanged on a GameError. -/
theorem propose_dichotomy (g : GameInstance) (hInv : GameInv g) (u : Player)
    (us : List Player) :
    (∃ g', g.propose_party u us = .ok g') ∨
      ∃ e, g.propose_party u us = .error (.game e, g) := by
  by_cases h1 : u ∈ g.players
  case neg => exact Or.inr ⟨.notRegistered, by simp [GameInstance.propose_party, h1]⟩
  by_cases h2 : g.state = .PROPOSAL_PENDING
  case neg => exact Or.inr ⟨.proposalNotPending, by simp [GameInstance.propose_party, h1, h2]⟩
  have hns : g.state ≠ .NOT_STARTED := by rw [h2]; intro hc; cases hc
  have h5 : 5 ≤ g.players.length := hInv.players_lo hns
  have hllo := hInv.leader_lo
  obtain ⟨l, hl⟩ := Option.isSome_iff_exists.mp
    (pyIdx_isSome g.players g.leader_idx (by omega) hInv.leader_hi)
  by_cases h3 : u = l
  case neg =>
    exact Or.inr ⟨.notLeader, by simp [GameInstance.propose_party, h1, h2, hl, h3]⟩
  subst h3
  obtain ⟨sizes, hsz, hlen5⟩ := party_sizes_length (hInv.players_lo hns) (hInv.players_hi hns)
  have hrne := hInv.rounds_nonempty hns
  have hrpos : 0 < g.rounds.length := List.length_pos.mpr hrne
  have hr5 := hInv.rounds_le
  obtain ⟨k, hk⟩ := Option.isSome_iff_exists.mp
    (pyIdx_isSome sizes ((g.rounds.length : Int) - 1)
      (by rw [hlen5]; omega) (by rw [hlen5]; omega))
  by_cases h4 : us.length = k
  case neg =>
    exact Or.inr ⟨.wrongPartySize,
      by simp [GameInstance.propose_party, h1, h2, hl, hsz, hk, h4]⟩
  by_cases h6 : ∀ x ∈ us, x ∈ g.players
  case neg =>
    exact Or.inr ⟨.unknownPlayer,
      by simp [GameInstance.propose_party, h1, h2, hl, hsz, hk, h4, h6]⟩
  obtain ⟨r, hr⟩ := Option.isSome_iff_exists.mp (List.getLast?_isSome.mpr hrne)
  have h6' : ¬ ∃ x ∈ us, x ∉ g.players := by push_neg; exact h6
  exact Or.inl (resOk_exists
    (by simp [GameInstance.propose_party, h1, h2, hl, hsz, hk, h4, h6', hr, resOk]))

/-- vote_party on a reachable state never raises an unchecked exception and
leaves the state unchanged on a GameError. -/
theorem vote_party_dichotomy (g : GameInstance) (hInv : GameInv g) (u : Player)
    (b : Bool) :
    (∃ g', g.vote_party u b = .ok g') ∨
      ∃ e, g.vote_party u b = .error (.game e, g) := by
  by_cases h1 : u ∈ g.players
  case neg => exact Or.inr ⟨.notRegistered, by simp [GameInstance.vote_party, h1]⟩
  by_cases h2 : g.state = .PARTY_VOTE_IN_PROGRESS
  case neg =>
    exact Or.inr ⟨.partyVoteNotInProgress, by simp [GameInstance.vote_party, h1, h2]⟩
  have hns : g.state ≠ .NOT_STARTED := by rw [h2]; intro hc; cases hc
  obtain ⟨r, hr⟩ := Option.isSome_iff_exists.mp
    (List.getLast?_isSome.mpr (hInv.rounds_nonempty hns))
  obtain ⟨v, hv⟩ := Option.isSome_iff_exists.mp
    (List.getLast?_isSome.mpr
      (hInv.voting_votes (by rw [h2]; simp [votingState]) r hr))
  by_cases h3 : u ∈ v.ballots.map Prod.fst
  · exact Or.inr ⟨.duplicateVote, by simp [GameInstance.vote_party, h1, h2, hr, hv, h3]⟩
  by_cases h4 : g.players.length ≤ v.ballots.length + 1
  · exact Or.inl (resOk_exists
      (by simp [GameInstance.vote_party, h1, h2, hr, hv, h3, h4, resOk]))
  · exact Or.inl (resOk_exists
      (by simp [GameInstance.vote_party, h1, h2, hr, hv, h3, h4, resOk]))

/-- vote_mission on a reachable state never raises an unchecked exception
and leaves the state unchanged on a GameError. -/
theorem vote_mission_dichotomy (g : GameInstance) (hInv : GameInv g) (u : Player)
    (b : Bool) :
    (∃ g', g.vote_mission u b = .ok g') ∨
      ∃ e, g.vote_mission u b = .error (.game e, g) := by
  by_cases h1 : u ∈ g.players
  case neg => exact Or.inr ⟨.notRegistered, by simp [GameInstance.vote_mission, h1]⟩
  by_cases h2 : g.state = .MISSION_VOTE_IN_PROGRESS
  case neg =>
    exact Or.inr ⟨.missionVoteNotInProgress, by simp [GameInstance.vote_mission, h1, h2]⟩
  have hns : g.state ≠ .NOT_STARTED := by rw [h2]; intro hc; cases hc
  have hrne := hInv.rounds_nonempty hns
  obtain ⟨r, hr⟩ := Option.isSome_iff_exists.mp (List.getLast?_isSome.mpr hrne)
  by_cases h3 : u ∈ r.ballots.map Prod.fst
  · exact Or.inr ⟨.duplicateVote, by simp [GameInstance.vote_mission, h1, h2, hr, h3]⟩
  obtain ⟨v, hv⟩ := Option.isSome_iff_exists.mp
    (List.getLast?_isSome.mpr
      (hInv.voting_votes (by rw [h2]; simp [votingState]) r hr))
  by_cases h4 : u ∈ v.party
  case neg =>
    exact Or.inr ⟨.notPartyMember, by simp [GameInstance.vote_mission, h1, h2, hr, h3,
      Round.last_vote, hv, h4]⟩
  by_cases h6 : b = false ∧ u ∉ g.spies
  · exact Or.inr ⟨.onlySpiesVoteBlack, by simp [GameInstance.vote_mission, h1, h2, hr, h3,
      Round.last_vote, hv, h4, h6]⟩
  obtain ⟨sizes, hsz, hlen5⟩ := party_sizes_length (hInv.players_lo hns) (hInv.players_hi hns)
  have hrpos : 0 < g.rounds.length := List.length_pos.mpr hrne
  have hr5 := hInv.rounds_le
  obtain ⟨k, hk⟩ := Option.isSome_iff_exists.mp
    (pyIdx_isSome sizes ((g.rounds.length : Int) - 1)
      (by rw [hlen5]; omega) (by rw [hlen5]; omega))
  have hlen' : (g.rounds.dropLast ++ [{ r with ballots := r.ballots ++ [(u, b)] }]).length
      = g.rounds.length := length_updateLast hrne _
  by_cases h7 : k ≤ r.ballots.length + 1
  · exact Or.inl (resOk_exists (by simp [GameInstance.vote_mission, h1, h2, hr, h3,
      Round.last_vote, hv, h4, h6, GameInstance.current_party_size, hlen', hsz, hk, h7,
      resOk]))
  · exact Or.inl (resOk_exists (by simp [GameInstance.vote_mission, h1, h2, hr, h3,
      Round.last_vote, hv, h4, h6, GameInstance.current_party_size, hlen', hsz, hk, h7,
      resOk]))

/-- next_state on a reachable state never raises an unchecked exception and
leaves the state unchanged on a GameError. -/
theorem next_state_dichotomy (g : GameInstance) (hInv : GameInv g)
    (spies : List Player) :
    (∃ g', g.next_state spies = .ok g') ∨
      ∃ e, g.next_state spies = .error (.game e, g) := by
  cases h2 : g.state with
  | NOT_STARTED =>
    by_cases hcnt : MIN_PLAYERS ≤ g.players.length ∧ g.players.length ≤ MAX_PLAYERS
    · exact Or.inl (resOk_exists (by simp [GameInstance.next_state, h2, hcnt, resOk]))
    · exact Or.inr ⟨.invalidPlayerCount, by simp [GameInstance.next_state, h2, hcnt]⟩
  | PROPOSAL_PENDING =>
    exact Or.inr ⟨.autoStateChange, by simp [GameInstance.next_state, h2]⟩
  | PARTY_VOTE_IN_PROGRESS =>
    exact Or.inr ⟨.autoStateChange, by simp [GameInstance.next_state, h2]⟩
  | PARTY_VOTE_RESULTS =>
    have hns : g.state ≠ .NOT_STARTED := by rw [h2]; intro hc; cases hc
    have h5 : 5 ≤ g.players.length := hInv.players_lo hns
    have hne0 : ¬ g.players.length = 0 := by omega
    obtain ⟨r, hr⟩ := Option.isSome_iff_exists.mp
      (List.getLast?_isSome.mpr (hInv.rounds_nonempty hns))
    obtain ⟨v, hv⟩ := Option.isSome_iff_exists.mp
      (List.getLast?_isSome.mpr
        (hInv.voting_votes (by rw [h2]; simp [votingState]) r hr))
    by_cases ho : v.outcome = true
    · exact Or.inl (resOk_exists (by simp [GameInstance.next_state, h2, hr,
        Round.last_vote, hv, ho, resOk]))
    by_cases hcan : r.can_vote = true
    · exact Or.inl (resOk_exists (by simp [GameInstance.next_state, h2, hr,
        Round.last_vote, hv, ho, hne0, hcan, resOk]))
    · exact Or.inl (resOk_exists (by simp [GameInstance.next_state, h2, hr,
        Round.last_vote, hv, ho, hne0, hcan, resOk]))
  | MISSION_VOTE_IN_PROGRESS =>
    exact Or.inr ⟨.autoStateChange, by simp [GameInstance.next_state, h2]⟩
  | MISSION_VOTE_RESULTS =>
    have hns : g.state ≠ .NOT_STARTED := by rw [h2]; intro hc; cases hc
    have h5 : 5 ≤ g.players.length := hInv.players_lo hns
    have hne0 : ¬ g.players.length = 0 := by omega
    exact Or.inl (resOk_exists (by simp [GameInstance.next_state, h2, hne0, resOk]))
  | GAME_OVER =>
    exact Or.inr ⟨.autoStateChange, by simp [GameInstance.next_state, h2]⟩

/-- C5: on every reachable state, every mutating operation of the engine
either succeeds, or fails with a typed GameError while the paired state --
the state of the object at the moment of the raise -- is exactly the state
before the call: failures are atomic with no partial mutation, and no
unchecked exception occurs. -/
theorem ops_atomic (g : GameInstance) (h : Reachable g) (a : Act) :
    (∃ g', applyAction a g = .ok g') ∨
      ∃ e, applyAction a g = .error (.game e, g) := by
  have hInv := reachable_inv h
  cases a with
  | register u => exact register_dichotomy g u
  | propose u us => exact propose_dichotomy g hInv u us
  | voteParty u b => exact vote_party_dichotomy g hInv u b
  | voteMission u b => exact vote_mission_dichotomy g hInv u b
  | advance spies => exact next_state_dichotomy g hInv spies

/-- C5 witness: at the started five-player game, registering another user
fails with a typed error and the paired state is the original one. -/
theorem ops_atomic_witness :
    (∃ g', applyAction (.register 7) gStart = .ok g') ∨
      ∃ e, applyAction (.register 7) gStart = .error (.game e, gStart) :=
  ops_atomic gStart gStart_reachable (.register 7)

theorem outcome_nil {g : GameInstance} (h : g.rounds = []) : g.outcome = none := by
  simp [GameInstance.outcome, h, WIN_LIMIT]

/-- In GAME_OVER every mutating operation is rejected: no successful call
exists. -/
theorem no_step_after_gameover {g : GameInstance} (hgo : g.state = .GAME_OVER)
    (a : Act) (g' : GameInstance) : applyAction a g ≠ .ok g' := by
  intro hok
  cases a with
  | register u =>
    simp only [applyAction] at hok
    unfold GameInstance.register_player at hok
    rw [hgo] at hok
    simp at hok
  | propose u us =>
    simp only [applyAction] at hok
    unfold GameInstance.propose_party at hok
    rw [hgo] at hok
    split at hok
    · simp at hok
    · rw [if_pos (by decide)] at hok
      simp at hok
  | voteParty u b =>
    simp only [applyAction] at hok
    unfold GameInstance.vote_party at hok
    rw [hgo] at hok
    split at hok
    · simp at hok
    · rw [if_pos (by decide)] at hok
      simp at hok
  | voteMission u b =>
    simp only [applyAction] at hok
    unfold GameInstance.vote_mission at hok
    rw [hgo] at hok
    split at hok
    · simp at hok
    · rw [if_pos (by decide)] at hok
      simp at hok
  | advance spies =>
    simp only [applyAction] at hok
    unfold GameInstance.next_state at hok
    rw [hgo] at hok
    simp at hok

/-- C1 (the code contradicts the claim and its own comment that VOTE_LIMIT
counts failed votes): in the reachable state gFifth the only round holds
five party proposals of which the fifth was approved by every player, and
both mission ballots are red (zero black ballots, fewer than the required
single fail), yet Round.outcome is false -- a spy win -- because
Round.outcome forfeits the round whenever five proposals exist, approved or
not.  The claim says such a round resolves as a resistance win. -/
theorem fifth_proposal_round_forfeited :
    Reachable gFifth ∧ gFifth.rounds = [rFifth] ∧
    rFifth.votes.length = 5 ∧
    (rFifth.votes.getLast?).map Vote.outcome = some true ∧
    (rFifth.ballots.map Prod.snd).count false = 0 ∧
    rFifth.winning_count = 1 ∧
    rFifth.outcome = false :=
  ⟨gFifth_reachable, by decide, by decide, by decide, by decide, by decide, by decide⟩

/-- C2 counterexample: a reachable state in which the resistance has won
only two completed rounds and the third round is freshly opened (no
proposal, no mission ballot), yet outcome already returns some true while
the phase is PROPOSAL_PENDING, not GAME_OVER: outcome does not stay nil
until a side has won three rounds. -/
theorem outcome_decided_early :
    Reachable gTwoWins ∧ gTwoWins.outcome = some true ∧
    gTwoWins.state = .PROPOSAL_PENDING ∧
    gTwoWins.rounds.length = 3 ∧
    (gTwoWins.rounds.getLast?).map Round.votes = some [] ∧
    (gTwoWins.rounds.getLast?).map Round.ballots = some [] :=
  ⟨gTwoWins_reachable, by decide, by decide, by decide, by decide, by decide⟩

/-- C2 amended: outcome counts the outcomes of all stored rounds, including
a round still in progress (which counts as a resistance win while it has
few black ballots), so outcome can return a side before that side has won
three completed rounds and while the phase is not GAME_OVER.  What does
hold in every reachable state: outcome returns a side exactly when at least
three stored rounds count in its favor (resistance checked first), and once
the phase is GAME_OVER the outcome is a definite side and no mutating
operation succeeds any more. -/
theorem outcome_gameover_locked (g : GameInstance) (h : Reachable g) :
    (g.outcome = some true ↔ WIN_LIMIT ≤ (g.rounds.map Round.outcome).count true) ∧
    (g.outcome = some false ↔ ¬ WIN_LIMIT ≤ (g.rounds.map Round.outcome).count true ∧
      WIN_LIMIT ≤ (g.rounds.map Round.outcome).count false) ∧
    (g.state = .GAME_OVER → (∃ b, g.outcome = some b) ∧
      ∀ (a : Act) (g' : GameInstance), applyAction a g ≠ .ok g') := by
  refine ⟨⟨?_, ?_⟩, ⟨?_, ?_⟩, fun hgo => ⟨(reachable_inv h).go_outcome hgo,
    fun a g' => no_step_after_gameover hgo a g'⟩⟩
  · intro hh
    unfold GameInstance.outcome at hh
    split at hh
    · assumption
    · split at hh <;> simp at hh
  · intro hh
    unfold GameInstance.outcome
    rw [if_pos hh]
  · intro hh
    unfold GameInstance.outcome at hh
    split at hh
    · simp at hh
    · next h1 =>
      split at hh
      · next h2 => exact ⟨h1, h2⟩
      · simp at hh
  · rintro ⟨h1, h2⟩
    unfold GameInstance.outcome
    rw [if_neg h1, if_pos h2]

/-- C2 witness: the concrete finished game has a decided outcome and
rejects a further mutating call. -/
theorem outcome_gameover_locked_witness :
    (∃ b, gOver.outcome = some b) ∧ applyAction (.register 9) gOver ≠ .ok gOver :=
  ⟨((outcome_gameover_locked gOver gOver_reachable).2.2 rfl).1,
   ((outcome_gameover_locked gOver gOver_reachable).2.2 rfl).2 (.register 9) gOver⟩

/-- C3: advance from PARTY_VOTE_RESULTS on any reachable state: when the
last vote was approved the phase becomes MISSION_VOTE_IN_PROGRESS with
leader and rounds unchanged; when it was rejected the leader index advances
by one modulo the player count, and then: with fewer than five proposals in
the round the phase returns to PROPOSAL_PENDING (same rounds), otherwise
the engine runs _next_round_or_gameover directly -- no mission ballot is
taken and the forfeited round's outcome counts as a spy win (false). -/
theorem advance_from_party_vote_results (g : GameInstance) (h : Reachable g)
    (hs : g.state = .PARTY_VOTE_RESULTS) (spies : List Player) :
    ∃ r v, g.rounds.getLast? = some r ∧ r.votes.getLast? = some v ∧
      (v.outcome = true →
        g.next_state spies = .ok { g with state := .MISSION_VOTE_IN_PROGRESS }) ∧
      (v.outcome = false →
        (r.votes.length < VOTE_LIMIT →
          g.next_state spies = .ok { g with
            leader_idx := (g.leader_idx + 1) % (g.players.length : Int),
            state := .PROPOSAL_PENDING }) ∧
        (¬ r.votes.length < VOTE_LIMIT →
          g.next_state spies =
            .ok ({ g with
              leader_idx := (g.leader_idx + 1) % (g.players.length : Int)
              }).next_round_or_gameover ∧
          r.outcome = false)) := by
  have hInv := reachable_inv h
  have hns : g.state ≠ .NOT_STARTED := by rw [hs]; intro hc; cases hc
  have h5 : 5 ≤ g.players.length := hInv.players_lo hns
  have hne0 : ¬ g.players.length = 0 := by omega
  obtain ⟨r, hr⟩ := Option.isSome_iff_exists.mp
    (List.getLast?_isSome.mpr (hInv.rounds_nonempty hns))
  obtain ⟨v, hv⟩ := Option.isSome_iff_exists.mp
    (List.getLast?_isSome.mpr
      (hInv.voting_votes (by rw [hs]; simp [votingState]) r hr))
  refine ⟨r, v, hr, hv, ?_, ?_⟩
  · intro ho
    simp [GameInstance.next_state, hs, hr, Round.last_vote, hv, ho]
  · intro ho
    constructor
    · intro hlt
      have hcan : r.can_vote = true := by
        simp [Round.can_vote]
        exact hlt
      simp [GameInstance.next_state, hs, hr, Round.last_vote, hv, ho, hne0, hcan,
        GameInstance.next_leader]
    · intro hge
      have hcan : r.can_vote = false := by
        simp [Round.can_vote]
        omega
      constructor
      · simp [GameInstance.next_state, hs, hr, Round.last_vote, hv, ho, hne0, hcan,
          GameInstance.next_leader]
      · simp [Round.outcome, hcan]

/-- C3 witness: in the concrete reachable PARTY_VOTE_RESULTS state whose
vote was approved by everyone, advance moves to MISSION_VOTE_IN_PROGRESS. -/
theorem advance_from_party_vote_results_witness :
    gPVR.next_state [] = .ok { gPVR with state := .MISSION_VOTE_IN_PROGRESS } := by
  obtain ⟨r, v, hr, hv, happrove, -⟩ :=
    advance_from_party_vote_results gPVR gPVR_reachable rfl []
  have hrv : r = { winning_count := 1, votes := [vApp5], ballots := [] } := by
    have h2 : (some { winning_count := 1, votes := [vApp5], ballots := [] } :
        Option Round) = some r := hr
    injection h2 with h2
    exact h2.symm
  subst hrv
  have hvv : v = vApp5 := by
    have h2 : (some vApp5 : Option Vote) = some v := hv
    injection h2 with h2
    exact h2.symm
  subst hvv
  exact happrove (by decide)

theorem nro_spies_eq (g : GameInstance) :
    g.next_round_or_gameover.spies = g.spies := by
  unfold GameInstance.next_round_or_gameover
  split <;> rfl

theorem nro_players_eq (g : GameInstance) :
    g.next_round_or_gameover.players = g.players := by
  unfold GameInstance.next_round_or_gameover
  split <;> rfl

theorem nro_leader_idx_eq (g : GameInstance) :
    g.next_round_or_gameover.leader_idx = g.leader_idx := by
  unfold GameInstance.next_round_or_gameover
  split <;> rfl

/-- A successful mutating call on a state outside NOT_STARTED never changes
the spies list (it is assigned only when the game starts). -/
theorem step_spies_eq {g g' : GameInstance} (hns : g.state ≠ .NOT_STARTED)
    (hstep : Step g g') : g'.spies = g.spies := by
  obtain ⟨a, hok, happ⟩ := hstep
  cases a with
  | register u =>
    simp only [applyAction] at happ
    unfold GameInstance.register_player at happ
    split at happ
    · exact absurd happ (by simp)
    · next h1 => exact absurd (not_not.mp h1) hns
  | propose u us =>
    simp only [applyAction] at happ
    unfold GameInstance.propose_party at happ
    repeat' split at happ
    all_goals first
      | (injection happ with happ; subst happ; rfl)
      | (injection happ)
  | voteParty u b =>
    simp only [applyAction] at happ
    unfold GameInstance.vote_party at happ
    repeat' split at happ
    all_goals try (simp only [] at happ)
    all_goals try (repeat' split at happ)
    all_goals first
      | (injection happ with happ; subst happ; rfl)
      | (injection happ)
  | voteMission u b =>
    simp only [applyAction] at happ
    unfold GameInstance.vote_mission at happ
    repeat' split at happ
    all_goals try (simp only [] at happ)
    all_goals try (repeat' split at happ)
    all_goals first
      | (injection happ with happ; subst happ; rfl)
      | (injection happ)
  | advance spies =>
    simp only [applyAction] at happ
    unfold GameInstance.next_state at happ
    split at happ
    · next hst => exact absurd hst hns
    · next hst =>
      split at happ
      · injection happ
      next r hlast =>
      split at happ
      · injection happ
      next v hlv =>
      split at happ
      · injection happ with happ
        subst happ
        rfl
      · split at happ
        · injection happ
        next hn0 =>
        simp only [] at happ
        split at happ
        · injection happ with happ
          subst happ
          rfl
        · injection happ with happ
          subst happ
          exact nro_spies_eq _
    · next hst =>
      split at happ
      · injection happ
      · injection happ with happ
        subst happ
        exact nro_spies_eq _
    · injection happ

/-- C6: in every reachable state the spies list is empty while the phase is
NOT_STARTED; once the engine leaves NOT_STARTED it holds exactly
spyCount playerCount members, where spyCount n = (n + 2) / 3 is the ceiling
of n / 3 (5 and 6 players give 2 spies, 7 to 9 give 3, 10 gives 4), its
members are distinct registered players, and no successful mutating call
outside NOT_STARTED ever changes it. -/
theorem spies_invariant :
    (∀ g : GameInstance, Reachable g →
      (g.state = .NOT_STARTED → g.spies = []) ∧
      (g.state ≠ .NOT_STARTED → g.spies.Nodup ∧ (∀ s ∈ g.spies, s ∈ g.players) ∧
        g.spies.length = spyCount g.players.length)) ∧
    (∀ n : Nat, n ≤ 3 * spyCount n ∧ 3 * spyCount n < n + 3) ∧
    spyCount 5 = 2 ∧ spyCount 6 = 2 ∧ spyCount 7 = 3 ∧ spyCount 8 = 3 ∧
    spyCount 9 = 3 ∧ spyCount 10 = 4 ∧
    (∀ g g' : GameInstance, g.state ≠ .NOT_STARTED → Step g g' → g'.spies = g.spies) := by
  refine ⟨?_, ?_, by decide, by decide, by decide, by decide, by decide, by decide, ?_⟩
  · intro g h
    have hInv := reachable_inv h
    exact ⟨hInv.fresh_spies,
      fun hns => ⟨hInv.spies_nodup, hInv.spies_mem, hInv.spies_len hns⟩⟩
  · intro n
    unfold spyCount
    omega
  · intro g g' hns hstep
    exact step_spies_eq hns hstep

/-- C6 witness: the spies of the concrete started five-player game. -/
theorem spies_invariant_witness :
    gStart.spies.Nodup ∧ (∀ s ∈ gStart.spies, s ∈ gStart.players) ∧
      gStart.spies.length = spyCount gStart.players.length :=
  (spies_invariant.1 gStart gStart_reachable).2 (by decide)

/-- C7: in every reachable state, the round stored at index 3 (the fourth
round) has winning_count (requiredFails) 2 exactly when the player count is
at least MIN_2IN4TH, every other round has winning_count 1; and a round
with winning_count 2 that is still below the vote limit succeeds with
exactly one black ballot and fails with two. -/
theorem required_fails_rule :
    (∀ g : GameInstance, Reachable g → ∀ (i : Nat) (r : Round),
      g.rounds.get? i = some r →
      r.winning_count = if MIN_2IN4TH ≤ g.players.length ∧ i = 3 then 2 else 1) ∧
    (∀ r : Round, r.winning_count = 2 → r.can_vote = true →
      ((r.ballots.map Prod.snd).count false = 1 → r.outcome = true) ∧
      ((r.ballots.map Prod.snd).count false = 2 → r.outcome = false)) := by
  constructor
  · intro g h i r hr
    exact ((reachable_inv h).rounds_wf i r hr).wc_eq
  · intro r h2 hcan
    constructor <;> intro hcnt <;> simp [Round.outcome, hcan, h2, hcnt]

/-- C7 witness: the fourth round of the concrete reachable seven-player
game has winning_count 2, and concrete two-fail rounds behave as stated. -/
theorem required_fails_rule_witness :
    ({ winning_count := 2, votes := [{ party := [0, 1], ballots := [] }],
       ballots := [(0, false), (1, true), (2, true), (3, true)] } : Round).outcome = true ∧
    ({ winning_count := 2, votes := [{ party := [0, 1], ballots := [] }],
       ballots := [(0, false), (1, false), (2, true), (3, true)] } : Round).outcome = false ∧
    ({ winning_count := 2, votes := [], ballots := [] } : Round).winning_count = 2 ∧
    g7r4.rounds.get? 3 = some { winning_count := 2, votes := [], ballots := [] } ∧
    g7r4.players.length = 7 :=
  ⟨(required_fails_rule.2 _ rfl (by decide)).1 (by decide),
   (required_fails_rule.2 _ rfl (by decide)).2 (by decide),
   (required_fails_rule.1 g7r4 g7r4_reachable 3 _ (by decide)).trans (by decide),
   by decide, by decide⟩

/-- C8: a party-proposal Vote is approved exactly when its true ballots
strictly outnumber its false ballots, so an equal split is a rejection; and
on every reachable state a successful vote_party call ends in
PARTY_VOTE_RESULTS exactly when the ballot count of the current vote has
reached the number of registered players (otherwise the phase stays
PARTY_VOTE_IN_PROGRESS). -/
theorem party_vote_majority :
    (∀ v : Vote, v.outcome = true ↔
      (v.ballots.map Prod.snd).count false < (v.ballots.map Prod.snd).count true) ∧
    (∀ v : Vote,
      (v.ballots.map Prod.snd).count true = (v.ballots.map Prod.snd).count false →
      v.outcome = false) ∧
    (∀ (g : GameInstance) (u : Player) (b : Bool) (g' : GameInstance), Reachable g →
      g.vote_party u b = .ok g' →
      (g'.state = .PARTY_VOTE_RESULTS ∨ g'.state = .PARTY_VOTE_IN_PROGRESS) ∧
      ∀ r v, g'.rounds.getLast? = some r → r.votes.getLast? = some v →
        (g'.state = .PARTY_VOTE_RESULTS ↔ v.ballots.length = g.players.length)) := by
  refine ⟨?_, ?_, ?_⟩
  · intro v
    constructor
    · intro hh
      simpa [Vote.outcome] using hh
    · intro hh
      simpa [Vote.outcome] using hh
  · intro v hh
    simp [Vote.outcome, hh]
  · intro g u b g' hreach h
    have hInv := reachable_inv hreach
    unfold GameInstance.vote_party at h
    split at h
    · exact absurd h (by simp)
    next hu0 =>
    split at h
    · exact absurd h (by simp)
    next hstate =>
    have hu : u ∈ g.players := not_not.mp hu0
    split at h
    · exact absurd h (by simp)
    next r hlast =>
    split at h
    · exact absurd h (by simp)
    next v hvlast =>
    split at h
    · exact absurd h (by simp)
    next hdup =>
    have hwfold : RoundWF g.players (g.rounds.length - 1) r := by
      have hg := hlast
      rw [List.getLast?_eq_get?] at hg
      exact hInv.rounds_wf _ r hg
    have hvwf : VoteWF g.players v := hwfold.votes_wf v (getLast?_mem' hvlast)
    have hble : v.ballots.length + 1 ≤ g.players.length := by
      have hnodup : ((v.ballots.map Prod.fst) ++ [u]).Nodup :=
        nodup_concat hvwf.keys_nodup hdup
      have hsub : ((v.ballots.map Prod.fst) ++ [u]) ⊆ g.players := by
        intro x hx
        rcases List.mem_append.mp hx with hx | hx
        · exact hvwf.keys_mem x hx
        · rw [List.mem_singleton.mp hx]
          exact hu
      have hle := (hnodup.subperm hsub).length_le
      simpa using hle
    simp only [] at h
    split at h
    · next hquorum =>
      simp only [List.length_append, List.length_cons, List.length_nil] at hquorum
      injection h with h
      subst h
      refine ⟨Or.inl rfl, ?_⟩
      intro r'' v'' hr'' hv''
      simp only [List.getLast?_concat] at hr''
      injection hr'' with hr''
      subst hr''
      simp only [List.getLast?_concat] at hv''
      injection hv'' with hv''
      subst hv''
      constructor
      · intro _
        simp only [List.length_append, List.length_cons, List.length_nil]
        omega
      · intro _
        rfl
    · next hquorum =>
      simp only [List.length_append, List.length_cons, List.length_nil] at hquorum
      injection h with h
      subst h
      refine ⟨Or.inr (not_not.mp hstate), ?_⟩
      intro r'' v'' hr'' hv''
      simp only [List.getLast?_concat] at hr''
      injection hr'' with hr''
      subst hr''
      simp only [List.getLast?_concat] at hv''
      injection hv'' with hv''
      subst hv''
      constructor
      · intro hc
        have := not_not.mp hstate
        rw [this] at hc
        cases hc
      · intro hc
        simp only [List.length_append, List.length_cons, List.length_nil] at hc
        omega

/-- One ballot cast in the party vote of the started five-player game. -/
def gPVIP1 : GameInstance :=
  { state := .PARTY_VOTE_IN_PROGRESS, players := [0, 1, 2, 3, 4], spies := [0, 1],
    rounds := [{ winning_count := 1,
                 votes := [{ party := [0, 1], ballots := [(0, true)] }],
                 ballots := [] }], leader_idx := -1 }

/-- C8 witness: player 0 approving in the concrete in-progress party vote
keeps the phase at PARTY_VOTE_IN_PROGRESS, with one ballot out of five. -/
theorem party_vote_majority_witness :
    gPVIP.vote_party 0 true = .ok gPVIP1 ∧
    gPVIP1.state ≠ .PARTY_VOTE_RESULTS ∧
    ({ party := [0, 1], ballots := [(0, true)] } : Vote).ballots.length ≠
      gPVIP.players.length := by
  have h := (party_vote_majority.2.2 gPVIP 0 true gPVIP1 gPVIP_reachable (by decide)).2
    { winning_count := 1, votes := [{ party := [0, 1], ballots := [(0, true)] }],
      ballots := [] }
    { party := [0, 1], ballots := [(0, true)] } (by decide) (by decide)
  refine ⟨by decide, by decide, ?_⟩
  intro hc
  exact absurd (h.mpr hc) (by decide)

/-- C9: starting a game (advance from a reachable NOT_STARTED state) keeps
the leader cursor at its initial value -1, so the leader of the first round
is the last player in registration order (Python indexing players[-1]); and
on any state at all, a successful call either leaves the cursor unchanged
or advances it by exactly one modulo the player count, the latter only when
advancing out of PARTY_VOTE_RESULTS (a rejected proposal) or
MISSION_VOTE_RESULTS (the end of a round). -/
theorem first_leader_is_last_registrant (g : GameInstance) (h : Reachable g)
    (hs : g.state = .NOT_STARTED) (spies : List Player) (g' : GameInstance)
    (hok : g.next_state spies = .ok g') :
    g.leader_idx = -1 ∧ g'.leader_idx = -1 ∧ g'.players = g.players ∧
    (∃ p, g.players.getLast? = some p ∧ g'.leader = some (some p)) ∧
    (∀ (g1 g2 : GameInstance) (a : Act), applyAction a g1 = .ok g2 →
      g2.leader_idx = g1.leader_idx ∨
      (g2.leader_idx = (g1.leader_idx + 1) % (g1.players.length : Int) ∧
        (g1.state = .PARTY_VOTE_RESULTS ∨ g1.state = .MISSION_VOTE_RESULTS))) := by
  have hInv := reachable_inv h
  have hfl : g.leader_idx = -1 := hInv.fresh_leader hs
  have hr0 : g.rounds = [] := hInv.fresh_rounds hs
  unfold GameInstance.next_state at hok
  rw [hs] at hok
  split at hok
  · split at hok
    case isFalse => exact absurd hok (by simp)
    next hcnt =>
    injection hok with hok
    have h5 : 5 ≤ g.players.length := hcnt.1
    have hppos : 0 < g.players.length := by omega
    have hnro : (GameInstance.mk .NOT_STARTED g.players spies g.rounds
          g.leader_idx).next_round_or_gameover =
        GameInstance.mk .PROPOSAL_PENDING g.players spies
          [Round.mk 1 [] []] g.leader_idx := by
      have hout : (GameInstance.mk .NOT_STARTED g.players spies g.rounds
          g.leader_idx).outcome = none := outcome_nil hr0
      unfold GameInstance.next_round_or_gameover
      rw [hout]
      simp [hr0]
    rw [hnro] at hok
    subst hok
    have hgne : g.players ≠ [] := by
      intro hnil
      rw [hnil] at hppos
      simp at hppos
    obtain ⟨p, hp⟩ := Option.isSome_iff_exists.mp (List.getLast?_isSome.mpr hgne)
    refine ⟨hfl, hfl, rfl, ⟨p, hp, ?_⟩, ?_⟩
    · have hpy : pyIdx g.players (-1) = some p := by
        unfold pyIdx
        rw [if_pos (by omega), if_neg (by omega)]
        have he : ((-1 : Int) + g.players.length).toNat = g.players.length - 1 := by
          omega
        rw [he, ← List.getLast?_eq_get?]
        exact hp
      unfold GameInstance.leader
      simp [hfl, hpy]
    · intro g1 g2 a happ
      cases a with
      | register u =>
        simp only [applyAction] at happ
        unfold GameInstance.register_player at happ
        repeat' split at happ
        all_goals first
          | (injection happ with happ; subst happ; exact Or.inl rfl)
          | (injection happ)
      | propose u us =>
        simp only [applyAction] at happ
        unfold GameInstance.propose_party at happ
        repeat' split at happ
        all_goals first
          | (injection happ with happ; subst happ; exact Or.inl rfl)
          | (injection happ)
      | voteParty u b =>
        simp only [applyAction] at happ
        unfold GameInstance.vote_party at happ
        repeat' split at happ
        all_goals try (simp only [] at happ)
        all_goals try (repeat' split at happ)
        all_goals first
          | (injection happ with happ; subst happ; exact Or.inl rfl)
          | (injection happ)
      | voteMission u b =>
        simp only [applyAction] at happ
        unfold GameInstance.vote_mission at happ
        repeat' split at happ
        all_goals try (simp only [] at happ)
        all_goals try (repeat' split at happ)
        all_goals first
          | (injection happ with happ; subst happ; exact Or.inl rfl)
          | (injection happ)
      | advance spies2 =>
        simp only [applyAction] at happ
        unfold GameInstance.next_state at happ
        split at happ
        · split at happ
          · injection happ with happ
            subst happ
            exact Or.inl (nro_leader_idx_eq _)
          · injection happ
        · next hst =>
          split at happ
          · injection happ
          next r hlast =>
          split at happ
          · injection happ
          next v hlv =>
          split at happ
          · injection happ with happ
            subst happ
            exact Or.inl rfl
          · split at happ
            · injection happ
            next hn0 =>
            simp only [] at happ
            split at happ
            · injection happ with happ
              subst happ
              exact Or.inr ⟨rfl, Or.inl hst⟩
            · injection happ with happ
              subst happ
              exact Or.inr ⟨nro_leader_idx_eq _, Or.inl hst⟩
        · next hst =>
          split at happ
          · injection happ
          · injection happ with happ
            subst happ
            exact Or.inr ⟨nro_leader_idx_eq _, Or.inr hst⟩
        · injection happ
  · next hx => cases hx
  · next hx => cases hx
  · rename_i hx1 hx2 hx3
    exact absurd rfl hx1

/-- C9 witness: starting the concrete five-player game keeps the cursor at
-1 and makes player 4, the last registrant, the first leader. -/
theorem first_leader_is_last_registrant_witness :
    gNS5.leader_idx = -1 ∧ gStart.leader_idx = -1 ∧ gStart.players = gNS5.players ∧
    (∃ p, gNS5.players.getLast? = some p ∧ gStart.leader = some (some p)) := by
  obtain ⟨h1, h2, h3, h4, -⟩ :=
    first_leader_is_last_registrant gNS5 gNS5_reachable rfl [0, 1] gStart (by decide)
  exact ⟨h1, h2, h3, h4⟩

/-- C10: propose_party does not require distinct party members: in the
concrete reachable started game the leader (player 4) proposes the
two-element party [0, 0] -- the same registered player twice -- and the
call succeeds, appends the Vote with that party, and moves the phase to
PARTY_VOTE_IN_PROGRESS. -/
theorem propose_allows_duplicates :
    Reachable gStart ∧ ¬ ([0, 0] : List Player).Nodup ∧
    gStart.propose_party 4 [0, 0] =
      .ok { state := .PARTY_VOTE_IN_PROGRESS, players := [0, 1, 2, 3, 4],
            spies := [0, 1],
            rounds := [{ winning_count := 1,
                         votes := [{ party := [0, 0], ballots := [] }],
                         ballots := [] }],
            leader_idx := -1 } :=
  ⟨gStart_reachable, by decide, by decide⟩
